import Mathlib

/-!
Verification development for the Discord utility bot in `src/main.py`.

The Python source is shallowly embedded: strings processed character by
character are modelled as `List Char` (or `String` where only whole-string
equality matters), Python dictionaries as association lists in insertion
order, and each Discord command handler as a pure function from its inputs
(including oracles for the external detection/translation services) to the
list of observable actions it performs (replies, service calls, message
edits).  The external translation library's supported-language table is not
part of the repository; it is modelled from the spec's contract for
`getSupportedLanguages`.
-/

namespace Spec2Proof

/-- Python whitespace predicate: the characters `str.strip()` removes and
that the regex class matches for ASCII text. -/
def isPySpace (ch : Char) : Bool :=
  ch = ' ' ∨ ch = '\t' ∨ ch = '\n' ∨ ch = '\x0d' ∨ ch = '\x0b' ∨ ch = '\x0c'

/-- Python `str.strip()`: drop leading and trailing whitespace. -/
def pyStrip (s : List Char) : List Char :=
  ((s.dropWhile isPySpace).reverse.dropWhile isPySpace).reverse

/-- ASCII lowering of one character, as Python's `str.lower` acts on the
ASCII inputs this program handles. -/
def pyLowerChar (ch : Char) : Char :=
  if 'A' ≤ ch ∧ ch ≤ 'Z' then Char.ofNat (ch.toNat + 32) else ch

/-- ASCII raising of one character. -/
def pyUpperChar (ch : Char) : Char :=
  if 'a' ≤ ch ∧ ch ≤ 'z' then Char.ofNat (ch.toNat - 32) else ch

/-- Python `str.lower()` for ASCII strings. -/
def pyLower (s : String) : String :=
  String.mk (s.toList.map pyLowerChar)

/-- Letter test used by `pyTitle` (`str.istitle` boundary rule). -/
def isAsciiLetter (ch : Char) : Bool :=
  ('a' ≤ ch ∧ ch ≤ 'z') ∨ ('A' ≤ ch ∧ ch ≤ 'Z')

/-- Core of Python `str.title()`: uppercase each letter that follows a
non-letter, lowercase the other letters.  The boolean is whether the
previous character was a letter. -/
def pyTitleAux : Bool → List Char → List Char
  | _, [] => []
  | prevAlpha, ch :: rest =>
    let ch' := if isAsciiLetter ch then (if prevAlpha then pyLowerChar ch else pyUpperChar ch) else ch
    ch' :: pyTitleAux (isAsciiLetter ch) rest

/-- Python `str.title()` for ASCII strings. -/
def pyTitle (s : List Char) : List Char := pyTitleAux false s

/-- Modelled from the spec: the external translation service's static
supported-language table (`getSupportedLanguages() -> mapping of displayName
to code`, §6), which `src/main.py` fetches over the network at startup and
binds to the module global `LANGUAGES`.  The table itself is not part of the
repository's sources; per the spec's data model it has unique lowercase
display names as keys and codes as values, including the simplified and
traditional Chinese variants.  A representative table in insertion order. -/
def LANGUAGES : List (String × String) :=
  [("arabic", "ar"),
   ("chinese (simplified)", "zh-CN"),
   ("chinese (traditional)", "zh-TW"),
   ("english", "en"),
   ("french", "fr"),
   ("spanish", "es")]

/-- `key_from_value` from `src/main.py` (lines 88-99): scan the dictionary's
items in order and return the first key whose value equals `value`, else
`None`. -/
def key_from_value (dictionary : List (String × String)) (value : String) :
    Option String :=
  (dictionary.find? (fun item => value = item.2)).map (·.1)

/-- `get_lang_code` from `src/main.py` (lines 153-183).  The input is
lowered; the loop `for l in LANGUAGES.items(): if dest_lang in l` tests
tuple membership, i.e. equality with the key or with the value, and returns
the entry's code on the first hit; otherwise the literal Chinese special
cases apply; otherwise `None`. -/
def get_lang_code (table : List (String × String)) (dest_lang : String) :
    Option String :=
  let d := pyLower dest_lang
  match table.find? (fun l => d = l.1 ∨ d = l.2) with
  | some l => some l.2
  | none =>
    if d = "chinese" ∨ d = "zh" then some "zh-CN"
    else if d = "zh-tw" then some "zh-TW"
    else if d = "zh-cn" then some "zh-CN"
    else none

/-- A list's `find?` returns the unique element satisfying the predicate. -/
theorem find?_eq_some_of_unique {α : Type} (p : α → Bool) :
    ∀ (l : List α) (a : α), a ∈ l → p a = true → (∀ b ∈ l, p b = true → b = a) →
      l.find? p = some a := by
  intro l a hmem hpa huniq
  induction l with
  | nil => cases hmem
  | cons x xs ih =>
    by_cases hx : p x = true
    · have hxa : x = a := huniq x (List.mem_cons_self x xs) hx
      rw [List.find?_cons_of_pos _ hx, hxa]
    · have hmem' : a ∈ xs := by
        rcases List.mem_cons.mp hmem with h | h
        · exact absurd (h ▸ hpa) hx
        · exact h
      rw [List.find?_cons_of_neg _ (by simpa using hx)]
      exact ih hmem' (fun b hb hpb => huniq b (List.mem_cons_of_mem x hb) hpb)

/-- C8: `get_lang_code` maps "chinese" and "zh" to the simplified-Chinese
code, "zh-tw" to the traditional-Chinese code and "zh-cn" to the
simplified-Chinese code; "zh-tw" and "zh-cn" resolve to distinct codes; and
the table lookup loop is consulted before the special cases (an entry for
"zh" in the table wins over the literal fallback). -/
theorem c8_chinese_special_cases :
    get_lang_code LANGUAGES "chinese" = some "zh-CN"
    ∧ get_lang_code LANGUAGES "zh" = some "zh-CN"
    ∧ get_lang_code LANGUAGES "zh-tw" = some "zh-TW"
    ∧ get_lang_code LANGUAGES "zh-cn" = some "zh-CN"
    ∧ get_lang_code LANGUAGES "zh-tw" ≠ get_lang_code LANGUAGES "zh-cn"
    ∧ get_lang_code (("zh", "table-entry-wins") :: LANGUAGES) "zh" =
        some "table-entry-wins" := by
  refine ⟨by decide, by decide, by decide, by decide, by decide, by decide⟩

/-- C9: round-trip of the registry.  For any table with lowercase display
names, no duplicate names, no duplicate codes, and no display name equal to
any code — the registry invariants the spec states for the external
supported-language table — every `(name, code)` pair satisfies
`key_from_value table (get_lang_code table name) = name`; and on a table in
which two display names share a code, `key_from_value` returns the first
encountered display name without error. -/
theorem c9_round_trip :
    (∀ (table : List (String × String)),
      (∀ e ∈ table, pyLower e.1 = e.1) →
      (table.map Prod.fst).Nodup →
      (table.map Prod.snd).Nodup →
      (∀ e ∈ table, ∀ e' ∈ table, e.1 ≠ e'.2) →
      ∀ e ∈ table, (get_lang_code table e.1).bind (key_from_value table) = some e.1)
    ∧ key_from_value [("a", "x"), ("b", "x")] "x" = some "a" := by
  constructor
  · intro table hlow hfst hsnd hdisj e he
    have hn : pyLower e.1 = e.1 := hlow e he
    have hfind : table.find? (fun l => pyLower e.1 = l.1 ∨ pyLower e.1 = l.2) = some e := by
      apply find?_eq_some_of_unique _ table e he
      · simp [hn]
      · intro b hb hpb
        rw [hn] at hpb
        simp only [decide_eq_true_eq] at hpb
        rcases hpb with h1 | h2
        · exact List.inj_on_of_nodup_map hfst hb he h1.symm
        · exact absurd h2 (hdisj e he b hb)
    have hcode : get_lang_code table e.1 = some e.2 := by
      simp only [get_lang_code, hfind]
    have hname : key_from_value table e.2 = some e.1 := by
      have hfind2 : table.find? (fun item => e.2 = item.2) = some e := by
        apply find?_eq_some_of_unique _ table e he
        · simp
        · intro b hb hpb
          simp only [decide_eq_true_eq] at hpb
          exact List.inj_on_of_nodup_map hsnd hb he hpb.symm
      simp only [key_from_value, hfind2, Option.map_some']
    rw [hcode]
    simpa using hname
  · decide

/-- Witness for C9 at the modelled table and the pair ("french", "fr"). -/
theorem c9_round_trip_witness :
    (get_lang_code LANGUAGES "french").bind (key_from_value LANGUAGES) = some "french" :=
  c9_round_trip.1 LANGUAGES (by decide) (by decide) (by decide) (by decide)
    ("french", "fr") (by decide)

/-- Matcher for the second `(?:keys)` alternation of the annotation pattern
followed by the literal `)`: Python tries the literal alternatives in order
and the first one that lets the rest of the pattern match wins.  Returns the
number of characters consumed (key plus closing parenthesis). -/
def matchKey2 (r : List Char) : List (List Char) → Option Nat
  | [] => none
  | k :: ks =>
    if k.isPrefixOf r ∧ (r.drop k.length).head? = some ')' then some (k.length + 1)
    else matchKey2 r ks

/-- Matcher for `(?:keys) -> (?:keys)\)` starting right after the opening
parenthesis: try each first-group alternative in order; on failure of the
rest of the pattern, backtrack to the next alternative. -/
def matchKey1 (allNames : List (List Char)) (r : List Char) :
    List (List Char) → Option Nat
  | [] => none
  | k :: ks =>
    if k.isPrefixOf r ∧ (" -> ".toList).isPrefixOf (r.drop k.length) then
      match matchKey2 (r.drop (k.length + 4)) allNames with
      | some m => some (k.length + 4 + m)
      | none => matchKey1 allNames r ks
    else matchKey1 allNames r ks

/-- Match of the compiled pattern `\s*\((?:keys) -> (?:keys)\)\s*` at the
head of `s`, returning the matched length.  The leading `\s*` is effectively
maximal-munch here because the following literal `(` is not whitespace, and
the trailing `\s*` is greedy. -/
def matchAnnot (names : List (List Char)) (s : List Char) : Option Nat :=
  let wsn := (s.takeWhile isPySpace).length
  if (s.drop wsn).head? = some '(' then
    match matchKey1 names ((s.drop wsn).tail) names with
    | some innerLen =>
      let core := wsn + 1 + innerLen
      some (core + ((s.drop core).takeWhile isPySpace).length)
    | none => none
  else none

/-- `re.sub(pattern, "", s)` for the annotation pattern: scan left to right,
delete each leftmost match and continue scanning right after its end.  The
fuel is initialised with the string length; every step consumes at least one
character (a match always contains the opening parenthesis). -/
def pySubAux (names : List (List Char)) : Nat → List Char → List Char
  | 0, s => s
  | _ + 1, [] => []
  | fuel + 1, c :: rest =>
    match matchAnnot names (c :: rest) with
    | some n => pySubAux names fuel ((c :: rest).drop n)
    | none => c :: pySubAux names fuel rest

/-- `re.sub(pattern, "", s)` with the annotation pattern built over `names`. -/
def pySub (names : List (List Char)) (s : List Char) : List Char :=
  pySubAux names s.length s

/-- The alternation the code builds on line 217: every display name of the
table, title-cased (`re.escape` only protects regex metacharacters, so the
names are matched literally), in table order. -/
def annotation_names (table : List (String × String)) : List (List Char) :=
  table.map (fun e => pyTitle e.1.toList)

/-- Lines 216-219 of `src/main.py`: strip translation annotations from a
bot-authored message, then `.strip()` the result. -/
def strip_retranslation (table : List (String × String)) (content : List Char) :
    List Char :=
  pyStrip (pySub (annotation_names table) content)

/-- C4 counterexample.  The first input, a bot-authored text that ends in
the exact-form Title-Case annotation `(Arabic -> French)`, still ends in a
trailing exact-form annotation after one strip, because `re.sub` deletes all
occurrences globally and deleting inner occurrences can reassemble a new
one; a second strip therefore still changes the (already-stripped) string.
The third conjunct shows a lower-case annotation is not matched at all: the
alternation is compiled from `key.title()` without `re.IGNORECASE`, so it is
case-sensitive, not case-insensitive. -/
theorem c4_strip_counterexample :
    strip_retranslation LANGUAGES
        ("x (English - (French -> English)> French) (Arabic -> French)".toList) =
      "x (English -> French)".toList
    ∧ strip_retranslation LANGUAGES ("x (English -> French)".toList) = "x".toList
    ∧ strip_retranslation LANGUAGES ("hi (english -> french)".toList) =
        "hi (english -> french)".toList := by
  refine ⟨by decide, by decide, by decide⟩

/-- Dropping the length of `takeWhile` is `dropWhile`. -/
theorem drop_takeWhile_length (p : Char → Bool) :
    ∀ s : List Char, s.drop ((s.takeWhile p).length) = s.dropWhile p := by
  intro s
  induction s with
  | nil => rfl
  | cons c rest ih =>
    by_cases h : p c <;> simp [List.takeWhile_cons, List.dropWhile_cons, h, ih]

/-- The head of `dropWhile p` does not satisfy `p`. -/
theorem head?_dropWhile_false (p : Char → Bool) :
    ∀ (l : List Char) (x : Char), (l.dropWhile p).head? = some x → p x = false := by
  intro l
  induction l with
  | nil => intro x h; cases h
  | cons c rest ih =>
    intro x h
    rw [List.dropWhile_cons] at h
    by_cases hc : p c
    · rw [if_pos hc] at h
      exact ih x h
    · rw [if_neg hc] at h
      cases h
      simpa using hc

/-- A list whose head (if any) fails `p` is unchanged by `dropWhile p`. -/
theorem dropWhile_eq_self_of_head (p : Char → Bool) (l : List Char)
    (h : ∀ x, l.head? = some x → p x = false) : l.dropWhile p = l := by
  cases l with
  | nil => rfl
  | cons c rest => rw [List.dropWhile_cons, if_neg (by simp [h c rfl])]

/-- `dropWhile` over an append stops inside the left part as soon as the
left part contains a character failing `p`. -/
theorem dropWhile_append_of_exists (p : Char → Bool) (l₂ : List Char) :
    ∀ l₁ : List Char, (∃ x ∈ l₁, p x = false) →
      (l₁ ++ l₂).dropWhile p = l₁.dropWhile p ++ l₂ := by
  intro l₁
  induction l₁ with
  | nil => rintro ⟨x, hx, _⟩; cases hx
  | cons c rest ih =>
    rintro ⟨x, hx, hpx⟩
    by_cases hc : p c
    · rw [List.cons_append, List.dropWhile_cons, if_pos hc, List.dropWhile_cons,
        if_pos hc]
      apply ih
      rcases List.mem_cons.mp hx with h | h
      · exact absurd (h ▸ hpx) (by simp [hc])
      · exact ⟨x, h, hpx⟩
    · rw [List.cons_append, List.dropWhile_cons, if_neg hc, List.dropWhile_cons,
        if_neg hc, List.cons_append]

/-- Characters surviving `pyStrip` come from the original string. -/
theorem mem_of_mem_pyStrip {x : Char} {s : List Char} (h : x ∈ pyStrip s) :
    x ∈ s := by
  unfold pyStrip at h
  rw [List.mem_reverse] at h
  have h2 : x ∈ (s.dropWhile isPySpace).reverse :=
    (List.dropWhile_sublist isPySpace).subset h
  rw [List.mem_reverse] at h2
  exact (List.dropWhile_sublist isPySpace).subset h2

/-- `pyStrip` is idempotent. -/
theorem pyStrip_idem (s : List Char) : pyStrip (pyStrip s) = pyStrip s := by
  unfold pyStrip
  have h1 : ((((s.dropWhile isPySpace).reverse.dropWhile isPySpace).reverse).dropWhile
      isPySpace) = ((s.dropWhile isPySpace).reverse.dropWhile isPySpace).reverse := by
    apply dropWhile_eq_self_of_head
    intro x hx
    have hpref : ((s.dropWhile isPySpace).reverse.dropWhile isPySpace).reverse <+:
        s.dropWhile isPySpace := by
      have hsuf : (s.dropWhile isPySpace).reverse.dropWhile isPySpace <:+
          (s.dropWhile isPySpace).reverse := List.dropWhile_suffix isPySpace
      have hiff :
          ((s.dropWhile isPySpace).reverse.dropWhile isPySpace).reverse <+:
            (s.dropWhile isPySpace).reverse.reverse ↔
          (s.dropWhile isPySpace).reverse.dropWhile isPySpace <:+
            (s.dropWhile isPySpace).reverse := List.reverse_prefix
      rw [List.reverse_reverse] at hiff
      exact hiff.mpr hsuf
    obtain ⟨t, ht⟩ := hpref
    have hhead : (s.dropWhile isPySpace).head? = some x := by
      rw [← ht]
      cases hrev : ((s.dropWhile isPySpace).reverse.dropWhile isPySpace).reverse with
      | nil => rw [hrev] at hx; cases hx
      | cons a as =>
        rw [hrev] at hx
        cases hx
        rfl
    exact head?_dropWhile_false isPySpace s x hhead
  rw [h1, List.reverse_reverse]
  have h2 : ((s.dropWhile isPySpace).reverse.dropWhile isPySpace).dropWhile isPySpace =
      (s.dropWhile isPySpace).reverse.dropWhile isPySpace := by
    apply dropWhile_eq_self_of_head
    intro x hx
    exact head?_dropWhile_false isPySpace _ x hx
  rw [h2]

/-- A trailing annotation of the exact bot-output form: a single separating
space, then `(A -> B)`. -/
def annot (A B : List Char) : List Char :=
  ' ' :: '(' :: (A ++ " -> ".toList ++ B ++ [')'])

/-- `pySubAux` on the empty string. -/
theorem pySubAux_nil (names : List (List Char)) (fuel : Nat) :
    pySubAux names fuel [] = [] := by
  cases fuel <;> rfl

/-- Step equations of `pySubAux` on a non-empty string. -/
theorem pySubAux_cons_match (names : List (List Char)) (fuel : Nat) (c : Char)
    (rest : List Char) (n : Nat) (hm : matchAnnot names (c :: rest) = some n) :
    pySubAux names (fuel + 1) (c :: rest) = pySubAux names fuel ((c :: rest).drop n) := by
  simp only [pySubAux, hm]

theorem pySubAux_cons_nomatch (names : List (List Char)) (fuel : Nat) (c : Char)
    (rest : List Char) (hm : matchAnnot names (c :: rest) = none) :
    pySubAux names (fuel + 1) (c :: rest) = c :: pySubAux names fuel rest := by
  simp only [pySubAux, hm]

/-- The pattern cannot match at a position whose first non-whitespace
character is not an opening parenthesis (the regex's `\s*` must be followed
by the literal `(`). -/
theorem matchAnnot_none_of_head (names : List (List Char)) (s : List Char)
    (h : ∀ c, (s.dropWhile isPySpace).head? = some c → c ≠ '(') :
    matchAnnot names s = none := by
  simp only [matchAnnot, drop_takeWhile_length]
  rw [if_neg]
  intro hc
  exact h '(' hc rfl

/-- A string containing no opening parenthesis is left unchanged by the
substitution: no position can start a match. -/
theorem pySubAux_no_paren (names : List (List Char)) :
    ∀ (s : List Char) (fuel : Nat), '(' ∉ s → pySubAux names fuel s = s := by
  intro s
  induction s with
  | nil => intro fuel _; exact pySubAux_nil names fuel
  | cons c rest ih =>
    intro fuel hparen
    cases fuel with
    | zero => rfl
    | succ f =>
      have hnone : matchAnnot names (c :: rest) = none := by
        apply matchAnnot_none_of_head
        intro ch hch heq
        apply hparen
        rw [← heq]
        exact (List.dropWhile_sublist isPySpace).subset (List.mem_of_mem_head? hch)
      rw [pySubAux_cons_nomatch names f c rest hnone,
        ih f (fun hmem => hparen (List.mem_cons_of_mem c hmem))]

/-- At a trailing annotation built from two known Title-Case display names,
the pattern matches the entire annotation. -/
theorem matchAnnot_annot {A B : List Char}
    (hA : A ∈ annotation_names LANGUAGES) (hB : B ∈ annotation_names LANGUAGES) :
    matchAnnot (annotation_names LANGUAGES) (annot A B) = some (annot A B).length := by
  have hN : annotation_names LANGUAGES =
      ["Arabic".toList, "Chinese (Simplified)".toList, "Chinese (Traditional)".toList,
       "English".toList, "French".toList, "Spanish".toList] := by decide
  rw [hN] at hA hB
  fin_cases hA <;> fin_cases hB <;> decide

/-- Scanning a base that contains no `(` and does not end in whitespace,
followed by a trailing annotation over known display names, deletes exactly
the annotation: no match can start inside the base, and the match at the
annotation consumes it entirely. -/
theorem pySubAux_base_annot {A B : List Char}
    (hA : A ∈ annotation_names LANGUAGES) (hB : B ∈ annotation_names LANGUAGES) :
    ∀ (base : List Char) (fuel : Nat), (base ++ annot A B).length ≤ fuel →
      '(' ∉ base → (∀ x, base.getLast? = some x → isPySpace x = false) →
      pySubAux (annotation_names LANGUAGES) fuel (base ++ annot A B) = base := by
  intro base
  induction base with
  | nil =>
    intro fuel hfuel _ _
    rw [List.nil_append] at hfuel ⊢
    cases fuel with
    | zero => simp [annot] at hfuel
    | succ f =>
      have hm := matchAnnot_annot hA hB
      have hcons : annot A B = ' ' :: ('(' :: (A ++ " -> ".toList ++ B ++ [')'])) := rfl
      rw [hcons] at hm ⊢
      rw [pySubAux_cons_match _ f _ _ _ hm, ← hcons, List.drop_length]
      exact pySubAux_nil _ f
  | cons c rest ih =>
    intro fuel hfuel hparen hlast
    have hbase_ne : (c :: rest : List Char) ≠ [] := List.cons_ne_nil c rest
    have hex : ∃ x ∈ (c :: rest : List Char), isPySpace x = false := by
      refine ⟨(c :: rest).getLast hbase_ne, List.getLast_mem hbase_ne, ?_⟩
      exact hlast _ (List.getLast?_eq_getLast_of_ne_nil hbase_ne)
    cases fuel with
    | zero =>
      exfalso
      have : 0 < ((c :: rest) ++ annot A B).length := by simp
      omega
    | succ f =>
      have hnone : matchAnnot (annotation_names LANGUAGES)
          ((c :: rest) ++ annot A B) = none := by
        apply matchAnnot_none_of_head
        intro ch hch heq
        rw [dropWhile_append_of_exists isPySpace (annot A B) (c :: rest) hex] at hch
        cases hd : (c :: rest : List Char).dropWhile isPySpace with
        | nil =>
          obtain ⟨x, hxmem, hxfalse⟩ := hex
          have := List.dropWhile_eq_nil_iff.mp hd x hxmem
          rw [this] at hxfalse
          cases hxfalse
        | cons a as =>
          rw [hd] at hch
          simp only [List.cons_append, List.head?_cons, Option.some.injEq] at hch
          apply hparen
          have ha : a = '(' := hch.trans heq
          rw [ha] at hd
          have hmem : '(' ∈ (c :: rest : List Char).dropWhile isPySpace := by
            rw [hd]; exact List.mem_cons_self _ _
          exact (List.dropWhile_sublist isPySpace).subset hmem
      rw [List.cons_append] at hnone ⊢
      rw [pySubAux_cons_nomatch _ f _ _ hnone]
      congr 1
      apply ih f
      · rw [List.cons_append] at hfuel
        simp only [List.length_cons] at hfuel
        omega
      · exact fun hmem => hparen (List.mem_cons_of_mem c hmem)
      · intro x hx
        apply hlast
        cases rest with
        | nil => cases hx
        | cons d ds => rw [List.getLast?_cons_cons]; exact hx

/-- C4 (amended): for bot-authored text made of a base that contains no
`(` character and does not end in whitespace, followed by one trailing
annotation `(A -> B)` over known Title-Case display names, a single strip
application yields the trimmed base, which contains no parenthetical
annotation at all, and re-applying the strip operation to that result
returns it unchanged; the display-name alternation is matched
case-sensitively against the Title-Case names (a lower-case annotation is
not stripped). -/
theorem c4_strip_amended :
    (∀ (base A B : List Char),
      A ∈ annotation_names LANGUAGES → B ∈ annotation_names LANGUAGES →
      '(' ∉ base → (∀ x, base.getLast? = some x → isPySpace x = false) →
      strip_retranslation LANGUAGES (base ++ annot A B) = pyStrip base
      ∧ '(' ∉ strip_retranslation LANGUAGES (base ++ annot A B)
      ∧ strip_retranslation LANGUAGES
          (strip_retranslation LANGUAGES (base ++ annot A B)) =
          strip_retranslation LANGUAGES (base ++ annot A B))
    ∧ strip_retranslation LANGUAGES ("ok (english -> french)".toList) =
        "ok (english -> french)".toList := by
  constructor
  · intro base A B hA hB hparen hlast
    have h1 : strip_retranslation LANGUAGES (base ++ annot A B) = pyStrip base := by
      unfold strip_retranslation pySub
      rw [pySubAux_base_annot hA hB base (base ++ annot A B).length le_rfl hparen hlast]
    have hsub : '(' ∉ pyStrip base := fun hmem => hparen (mem_of_mem_pyStrip hmem)
    refine ⟨h1, h1 ▸ hsub, ?_⟩
    rw [h1]
    unfold strip_retranslation pySub
    rw [pySubAux_no_paren _ (pyStrip base) (pyStrip base).length hsub]
    exact pyStrip_idem base
  · decide

/-- Witness for the amended C4 at a concrete base and annotation. -/
theorem c4_strip_amended_witness :
    strip_retranslation LANGUAGES
        ("bonjour".toList ++ annot "English".toList "French".toList) =
      pyStrip "bonjour".toList :=
  (c4_strip_amended.1 "bonjour".toList "English".toList "French".toList
    (by decide) (by decide) (by decide) (by decide)).1

/-- The usage string of the `t` handler (line 197 of `src/main.py`). -/
def USAGE_ERROR : String := "\nUsage: Reply to a message with `-t <language>`."

/-- Observable inputs of one `t` invocation: the presence of a replied-to
message reference, the optional destination-language argument, the replied
message's content and author id, and oracles for the two external service
calls (`single_detection` and `GoogleTranslator.translate`). -/
structure TInput where
  hasReference : Bool
  destArg : Option String
  msgContent : List Char
  msgAuthorId : Nat
  detectResult : String
  translateResult : String

/-- Observable actions the `t` handler performs, in order. -/
inductive TAct where
  | reply (msg : String)
  | translateCall (src dst : String)
  | deliver (content : String)
deriving DecidableEq

/-- How a Python f-string renders a variable holding an optional string:
`None` is interpolated as the literal text "None". -/
def pyFormatOptStr : Option String → String
  | none => "None"
  | some s => s

/-- Lines 229-230 of `src/main.py`: a detected "zh" is normalized to the
simplified-Chinese code. -/
def normalize_detected (src : String) : String :=
  if src = "zh" then "zh-CN" else src

/-- Lines 211-219 of `src/main.py`: the replied message's content after
`.strip()`, removal of all `*` characters, and — iff the message's author is
the bot itself — annotation stripping. -/
def t_cleaned_content (table : List (String × String)) (botId : Nat)
    (inp : TInput) : List Char :=
  let content0 := (pyStrip inp.msgContent).filter (fun ch => ch ≠ '*')
  if inp.msgAuthorId = botId then strip_retranslation table content0 else content0

/-- The `t` command handler (lines 186-248 of `src/main.py`) as a function
from its inputs to the ordered list of observable actions.  Each early
`return` produces a single reply.  Note that on an unresolvable destination
the code has already rebound `dest_lang` to the `None` returned by
`get_lang_code`, so the error message interpolates `None`.  The final
formatting calls `.title()` on `key_from_value(...)`; if that reverse lookup
returned `None` the attribute access would raise, and the handler's
`except Exception` boundary converts it to the generic unknown-error reply. -/
def t_command (table : List (String × String)) (botId : Nat) (inp : TInput) :
    List TAct :=
  if inp.hasReference = false then
    [.reply ("Error: No Message Found." ++ USAGE_ERROR)]
  else
    match get_lang_code table (inp.destArg.getD "en") with
    | none =>
      [.reply ("Error: `" ++ pyFormatOptStr none ++ "` is not a valid language."
        ++ USAGE_ERROR)]
    | some dest_code =>
      if t_cleaned_content table botId inp = [] then
        [.reply ("Error: No Message Found.\n" ++ USAGE_ERROR)]
      else
        let src_lang := normalize_detected inp.detectResult
        if table.any (fun l => src_lang = l.2) then
          .translateCall src_lang dest_code ::
          (if inp.translateResult = "" then
            [.reply ("Error: Translation failed.\n" ++ USAGE_ERROR)]
          else
            match key_from_value table src_lang, key_from_value table dest_code with
            | some sk, some dk =>
              [.deliver ("**" ++ inp.translateResult ++ "** (" ++
                String.mk (pyTitle sk.toList) ++ " -> " ++
                String.mk (pyTitle dk.toList) ++ ")")]
            | _, _ => [.reply ("Error: Unknown.\n" ++ USAGE_ERROR)])
        else
          [.reply ("Error: `" ++ src_lang ++ "` is not a supported source language.\n"
            ++ USAGE_ERROR)]

/-- Substring test on character lists. -/
def containsSub (s sub : List Char) : Bool :=
  (List.range (s.length + 1)).any (fun i => sub.isPrefixOf (s.drop i))

/-- C3 demonstration: on an unresolvable destination ("klingon"), the `t`
handler stops before content extraction and translation, but the error reply
interpolates the rebound variable — which is `None` at that point — instead
of the string the user supplied: the message is literally
"Error: `None` is not a valid language. ..." and does not contain "klingon". -/
theorem c3_invalid_dest_replies_none :
    t_command LANGUAGES 999 ⟨true, some "klingon", "bonjour".toList, 0, "fr", "salut"⟩ =
      [TAct.reply ("Error: `None` is not a valid language." ++ USAGE_ERROR)]
    ∧ containsSub ("Error: `None` is not a valid language." ++ USAGE_ERROR).toList
        "klingon".toList = false
    ∧ (t_command LANGUAGES 999
        ⟨true, some "klingon", "bonjour".toList, 0, "fr", "salut"⟩).all
        (fun a => match a with
          | TAct.reply _ => true
          | TAct.translateCall _ _ => false
          | TAct.deliver _ => false) = true := by
  refine ⟨by decide, by decide, by decide⟩

/-- C5: whenever a `t` invocation reaches source detection (a reply target
exists, the destination resolved, the cleaned content is non-empty) and the
detected code — after normalizing "zh" to "zh-CN" — is not among the table's
codes, the handler replies with the source-language error naming the
detected code and the translation service is never called. -/
theorem c5_unknown_source_stops_pipeline :
    ∀ (table : List (String × String)) (botId : Nat) (inp : TInput) (d : String),
      inp.hasReference = true →
      get_lang_code table (inp.destArg.getD "en") = some d →
      t_cleaned_content table botId inp ≠ [] →
      table.any (fun l => normalize_detected inp.detectResult = l.2) = false →
      t_command table botId inp =
        [TAct.reply ("Error: `" ++ normalize_detected inp.detectResult ++
          "` is not a supported source language.\n" ++ USAGE_ERROR)]
      ∧ ∀ s dst, TAct.translateCall s dst ∉ t_command table botId inp := by
  intro table botId inp d h1 h2 h3 h4
  have htrace : t_command table botId inp =
      [TAct.reply ("Error: `" ++ normalize_detected inp.detectResult ++
        "` is not a supported source language.\n" ++ USAGE_ERROR)] := by
    unfold t_command
    rw [h1, h2]
    simp only [Bool.true_eq_false, if_false, if_neg h3, h4, Bool.false_eq_true, if_false]
  refine ⟨htrace, ?_⟩
  intro s dst
  rw [htrace]
  simp

/-- Witness for C5 at a concrete invocation with detected code "xx". -/
theorem c5_unknown_source_witness :
    t_command LANGUAGES 999 ⟨true, some "french", "bonjour".toList, 0, "xx", "salut"⟩ =
      [TAct.reply ("Error: `" ++ normalize_detected "xx" ++
        "` is not a supported source language.\n" ++ USAGE_ERROR)] :=
  (c5_unknown_source_stops_pipeline LANGUAGES 999
    ⟨true, some "french", "bonjour".toList, 0, "xx", "salut"⟩ "fr"
    rfl (by decide) (by decide) (by decide)).1

/-- C10: with no destination argument the `t` handler behaves exactly as if
the user had supplied "en" — the parameter's declared default. -/
theorem c10_default_dest_is_en :
    ∀ (table : List (String × String)) (botId : Nat) (hasRef : Bool)
      (content : List Char) (authorId : Nat) (det tr : String),
      t_command table botId ⟨hasRef, none, content, authorId, det, tr⟩ =
        t_command table botId ⟨hasRef, some "en", content, authorId, det, tr⟩ := by
  intro table botId hasRef content authorId det tr
  rfl

/-- Python identifier characters. -/
def isIdentStart (ch : Char) : Bool := isAsciiLetter ch ∨ ch = '_'

def isIdentChar (ch : Char) : Bool := isIdentStart ch ∨ ('0' ≤ ch ∧ ch ≤ '9')

/-- The free names an expression resolves against the enclosing namespaces
when `eval`-uated: scan left to right, skipping string literals, collecting
maximal identifier runs; an identifier immediately after `.` is an attribute
access on an object, not a name looked up in the namespaces.  The fuel is
initialised with the string length (every step consumes at least one
character). -/
def scanNames : Nat → List Char → Bool → List (List Char)
  | 0, _, _ => []
  | _ + 1, [], _ => []
  | fuel + 1, ch :: rest, afterDot =>
    if ch = '\x27' ∨ ch = '"' then
      scanNames fuel ((rest.dropWhile (fun d => d ≠ ch)).drop 1) false
    else if isIdentStart ch then
      let run := rest.takeWhile isIdentChar
      let rest' := rest.drop run.length
      if afterDot then scanNames fuel rest' false
      else (ch :: run) :: scanNames fuel rest' false
    else
      scanNames fuel rest (ch = '.')

/-- Every module-level binding of `src/main.py` visible to the bare
`eval(eq)` call on line 331: the imports of lines 25-38 (note `degrees` and
`radians` are bound as `deg` and `rad`), the module functions, the fetched
keys and constants, and the bot object and command handlers. -/
def eval_module_globals : List String :=
  ["os", "re", "Any", "Optional", "Union", "load_dotenv", "discord", "commands",
   "GoogleTranslator", "single_detection", "floor", "ceil", "sqrt", "pi", "sin",
   "cos", "tan", "asin", "acos", "atan", "deg", "rad", "fetch_key",
   "key_from_value", "TOKEN", "ID", "TRANSLATE_API_KEY", "LANGUAGES",
   "MAX_MESSAGE_LENGTH", "bot", "return_message", "h", "get_lang_code", "t",
   "l", "c", "e"]

/-- A representative subset of the Python builtins namespace, which the bare
`eval(eq)` call also resolves names against. -/
def eval_builtins : List String :=
  ["__import__", "print", "open", "exec", "eval", "getattr", "setattr", "round",
   "abs", "len", "range", "int", "float", "str", "input", "type", "globals",
   "locals", "compile", "id", "repr"]

/-- The numeric whitelist of functions and constants the spec allows the
calculate command (§4.3): floor, ceil, square-root, pi, trigonometry,
degrees, radians. -/
def calc_whitelist : List String :=
  ["floor", "ceil", "sqrt", "pi", "sin", "cos", "tan", "asin", "acos", "atan",
   "degrees", "radians"]

/-- Outcome of one `c` invocation, as far as name resolution decides it. -/
inductive COutcome where
  | reply (msg : String)
  | evaluated (freeNames : List String)
  | uncaught (excType : String)
deriving DecidableEq

/-- Line 324 of `src/main.py`: `" ".join(equation).replace("^", "**")`. -/
def caret_to_pow (s : List Char) : List Char :=
  s.flatMap (fun ch => if ch = '^' then ['*', '*'] else [ch])

/-- The `c` command handler (lines 316-341 of `src/main.py`) as far as name
resolution determines its behaviour.  An empty joined equation is rejected
with the usage reply.  Otherwise the expression goes to the bare builtin
`eval`, which resolves every free name against the module globals and the
builtins: if some name is unresolvable, `eval` raises
`NameError("name '<n>' is not defined")` and the `except NameError` handler
executes `e.split()` — an attribute access on the exception object, which
has no `split` method — so an `AttributeError` is raised inside the handler
and escapes the `c` function (a sibling `except` clause of the same `try`
does not catch an exception raised in another handler).  If every name
resolves, `eval` executes the expression with whatever capabilities those
names carry; `evaluated` records the resolved free names (the numeric value
and the subsequent ValueError/other branches are beyond this model). -/
def c_command (equation : List String) : COutcome :=
  let eq := caret_to_pow (String.intercalate " " equation).toList
  if eq = [] then .reply "Error: No Equation Found.\nUsage: `-c <equation>`"
  else
    let names := (scanNames eq.length eq false).map String.mk
    match names.find? (fun n =>
        !(eval_module_globals.contains n || eval_builtins.contains n)) with
    | some _ => .uncaught "AttributeError"
    | none => .evaluated names

/-- Python `str.split()` with no argument: split on maximal whitespace runs,
discarding empty fields.  Fuel initialised with the string length. -/
def pySplitWs : Nat → List Char → List (List Char)
  | 0, _ => []
  | fuel + 1, s =>
    match s.dropWhile isPySpace with
    | [] => []
    | c :: rest =>
      ((c :: rest).takeWhile (fun d => !isPySpace d)) ::
        pySplitWs fuel ((c :: rest).dropWhile (fun d => !isPySpace d))

/-- The identifier extraction the spec describes for the unknown-function
message (and that line 337 attempts on the wrong object): the second
whitespace token of `str(e)` with its first and last characters trimmed,
`str(e).split()[1][1:-1]`. -/
def nameError_extract (msg : String) : String :=
  String.mk ((((pySplitWs msg.toList.length msg.toList).getD 1 []).drop 1).dropLast)

/-- C1 demonstration: the input `__import__("os").system("echo pwned")` is
not rejected by the calculate command — its only free name, the builtin
`__import__`, resolves, so `eval` executes it, importing a module and
running a shell command — and that name lies outside the numeric whitelist.
The module `os` itself is likewise resolvable (it is imported at module
level) and outside the whitelist.  So inputs reaching outside the numeric
whitelist are neither rejected nor no-ops. -/
theorem c1_eval_resolves_outside_whitelist :
    c_command ["__import__(\"os\").system(\"echo pwned\")"] =
      COutcome.evaluated ["__import__"]
    ∧ (eval_module_globals.contains "__import__"
        || eval_builtins.contains "__import__") = true
    ∧ calc_whitelist.contains "__import__" = false
    ∧ (eval_module_globals.contains "os" || eval_builtins.contains "os") = true
    ∧ calc_whitelist.contains "os" = false := by
  refine ⟨by decide, by decide, by decide, by decide, by decide⟩

/-- C2 demonstration: on `foo(1)` the evaluation fails on the unknown
identifier `foo`, but the `except NameError` handler itself faults
(`e.split()` on the exception object) and an `AttributeError` escapes the
`c` handler, so no reply naming `foo` is sent.  The second conjunct checks
that the extraction the claim describes, applied to `str(e)`, would indeed
name `foo`. -/
theorem c2_unknown_function_handler_crashes :
    c_command ["foo(1)"] = COutcome.uncaught "AttributeError"
    ∧ nameError_extract "name \x27foo\x27 is not defined" = "foo" := by
  refine ⟨by decide, by decide⟩

/-- Line 112 of `src/main.py`: Discord's maximum message length. -/
def MAX_MESSAGE_LENGTH : Nat := 2000

/-- Python's `range(start, stop, step)` for a positive step, in closed form:
the k-th element is `start + step*k` and there are `ceil((stop-start)/step)`
elements (zero when `stop ≤ start`). -/
def pyRange (start stop step : Nat) : List Nat :=
  (List.range ((stop - start + (step - 1)) / step)).map (fun k => start + step * k)

/-- Observable sends of `return_message`: a reply chunk or a follow-up send. -/
inductive MsgAct where
  | reply (chunk : List Char)
  | send (chunk : List Char)
deriving DecidableEq

def actChunk : MsgAct → List Char
  | .reply ch => ch
  | .send ch => ch

def isSend : MsgAct → Bool
  | .reply _ => false
  | .send _ => true

/-- `return_message` (lines 118-130 of `src/main.py`): the first chunk
`content[0:2000]` is sent as a reply; then for each
`i in range(2000, len(content), 2000)` the slice `content[i:i+2000]` is sent
as an independent follow-up message, in order. -/
def return_message (content : List Char) : List MsgAct :=
  .reply (content.take MAX_MESSAGE_LENGTH) ::
    (pyRange MAX_MESSAGE_LENGTH content.length MAX_MESSAGE_LENGTH).map
      (fun i => .send ((content.drop i).take MAX_MESSAGE_LENGTH))

/-- The 2000-wide slices enumerated by the Python range concatenate to the
tail of the content from the start offset. -/
theorem pyRange_chunks_join (c : List Char) :
    ∀ (n start : Nat), n = (c.length - start + 1999) / 2000 →
      ((pyRange start c.length 2000).map (fun i => (c.drop i).take 2000)).flatten =
        c.drop start := by
  intro n
  induction n with
  | zero =>
    intro start h
    have hle : c.length ≤ start := by omega
    have hr : pyRange start c.length 2000 = [] := by
      unfold pyRange
      rw [← h]
      rfl
    rw [hr, List.map_nil, List.flatten_nil, List.drop_eq_nil_of_le hle]
  | succ m ih =>
    intro start h
    have hlt : start < c.length := by omega
    have hrange : pyRange start c.length 2000 =
        start :: pyRange (start + 2000) c.length 2000 := by
      unfold pyRange
      have hm : (c.length - (start + 2000) + 1999) / 2000 = m := by omega
      rw [← h, hm, List.range_succ_eq_map]
      simp only [List.map_cons, List.map_map, Nat.mul_zero, Nat.add_zero]
      congr 1
      apply List.map_congr_left
      intro k _
      simp only [Function.comp_apply]
      omega
    rw [hrange, List.map_cons, List.flatten_cons, ih (start + 2000) (by omega)]
    have hdd : c.drop (start + 2000) = (c.drop start).drop 2000 := by
      rw [List.drop_drop]
    rw [hdd, List.take_append_drop]

/-- C7: `return_message` splits its content into consecutive slices of at
most 2000 characters whose concatenation is the original content, sends the
first slice as a reply and every further slice as a follow-up, in order; on
any 4500-character content it sends exactly three chunks of lengths 2000,
2000 and 500, the first a reply and the rest follow-ups. -/
theorem c7_deliver_chunks :
    (∀ content : List Char,
      ((return_message content).map actChunk).flatten = content
      ∧ (∀ a ∈ return_message content, (actChunk a).length ≤ MAX_MESSAGE_LENGTH)
      ∧ (return_message content).head? =
          some (MsgAct.reply (content.take MAX_MESSAGE_LENGTH))
      ∧ (return_message content).tail.all isSend = true)
    ∧ (∀ content : List Char, content.length = 4500 →
      (return_message content).map (fun a => (isSend a, (actChunk a).length)) =
        [(false, 2000), (true, 2000), (true, 500)]) := by
  constructor
  · intro content
    refine ⟨?_, ?_, rfl, ?_⟩
    · show ((return_message content).map actChunk).flatten = content
      simp only [return_message, MAX_MESSAGE_LENGTH]
      rw [List.map_cons, List.map_map, List.flatten_cons]
      have hcomp : actChunk ∘ (fun i => MsgAct.send ((content.drop i).take 2000)) =
          fun i => (content.drop i).take 2000 := by
        funext i
        rfl
      rw [hcomp]
      rw [pyRange_chunks_join content ((content.length - 2000 + 1999) / 2000) 2000 rfl]
      exact List.take_append_drop _ _
    · intro a ha
      unfold return_message at ha
      rcases List.mem_cons.mp ha with h | h
      · rw [h]
        exact List.length_take_le _ _
      · obtain ⟨i, _, hi⟩ := List.mem_map.mp h
        rw [← hi]
        exact List.length_take_le _ _
    · unfold return_message
      rw [List.tail_cons, List.all_eq_true]
      intro a ha
      obtain ⟨i, _, hi⟩ := List.mem_map.mp ha
      rw [← hi]
      rfl
  · intro content h
    have hr : pyRange 2000 4500 2000 = [2000, 4000] := rfl
    simp only [return_message, MAX_MESSAGE_LENGTH, h, hr, List.map_cons,
      List.map_nil, List.map_map, Function.comp]
    simp only [isSend, actChunk, List.length_take, List.length_drop, h]
    norm_num

/-- Witness for C7's 4500-character clause at a concrete content. -/
theorem c7_deliver_chunks_witness :
    (return_message (List.replicate 4500 'a')).map
        (fun a => (isSend a, (actChunk a).length)) =
      [(false, 2000), (true, 2000), (true, 500)] :=
  c7_deliver_chunks.2 (List.replicate 4500 'a') (by rw [List.length_replicate])

/-- A navigation activation accepted by the reaction filter of the `l`
command (lines 285-298 of `src/main.py`): the forward or backward reaction,
on the original message, from the original requester. -/
inductive NavEvent where
  | next
  | prev
deriving DecidableEq

/-- Lines 305-308: each accepted activation increments or decrements the
cursor; the cursor is a Python integer, never bounded or clamped. -/
def l_step (cursor : Int) (e : NavEvent) : Int :=
  match e with
  | .next => cursor + 1
  | .prev => cursor - 1

/-- The cursor after a sequence of accepted activations; `current_page`
starts at 0. -/
def l_cursor (events : List NavEvent) : Int :=
  events.foldl l_step 0

/-- Line 311: the page shown after each activation is
`pages[current_page % len(pages)]`.  Python's `%` with a positive modulus
agrees with Lean's `Int.emod`; the reduced index is always in bounds for a
non-empty page list, so `getD`'s default is never used there. -/
def l_displayed (pages : List String) (events : List NavEvent) : String :=
  pages.getD (l_cursor events % (pages.length : Int)).toNat ""

def countNext (events : List NavEvent) : Nat :=
  events.countP (fun e => e = NavEvent.next)

def countPrev (events : List NavEvent) : Nat :=
  events.countP (fun e => e = NavEvent.prev)

/-- The navigation fold computes exactly (number of next) - (number of
previous), offset by the start value. -/
theorem l_foldl_count (events : List NavEvent) :
    ∀ start : Int, events.foldl l_step start =
      start + (countNext events : Int) - (countPrev events : Int) := by
  induction events with
  | nil => intro start; simp [countNext, countPrev]
  | cons e es ih =>
    intro start
    rw [List.foldl_cons, ih (l_step start e)]
    cases e <;>
      simp [l_step, countNext, countPrev, List.countP_cons] <;> omega

/-- C6: for every page list and every finite sequence of accepted
next/previous activations, the page displayed after the last activation is
`pages[(#next - #prev) mod pageCount]`; in particular with three pages a
"next" from the last page wraps to the first, a "previous" from the first
page wraps (via the nonnegative modulo) to the last, and the cursor itself
is never bounded (five "next" activations leave it at 5, beyond the page
count). -/
theorem c6_pagination_modular :
    (∀ (pages : List String) (events : List NavEvent), 2 ≤ pages.length →
      l_displayed pages events =
        pages.getD (((countNext events : Int) - (countPrev events : Int)) %
          (pages.length : Int)).toNat "")
    ∧ l_displayed ["p1", "p2", "p3"]
        [NavEvent.next, NavEvent.next, NavEvent.next] = "p1"
    ∧ l_displayed ["p1", "p2", "p3"] [NavEvent.prev] = "p3"
    ∧ l_cursor [NavEvent.next, NavEvent.next, NavEvent.next, NavEvent.next,
        NavEvent.next] = 5 := by
  refine ⟨?_, by decide, by decide, by decide⟩
  intro pages events _
  have hc : l_cursor events = (countNext events : Int) - (countPrev events : Int) := by
    unfold l_cursor
    rw [l_foldl_count events 0]
    omega
  unfold l_displayed
  rw [hc]

/-- Witness for C6's universal clause at a concrete session. -/
theorem c6_pagination_modular_witness :
    l_displayed ["a", "b", "c"] [NavEvent.next] =
      (["a", "b", "c"] : List String).getD
        (((countNext [NavEvent.next] : Int) - (countPrev [NavEvent.next] : Int)) %
          ((["a", "b", "c"] : List String).length : Int)).toNat "" :=
  c6_pagination_modular.1 ["a", "b", "c"] [NavEvent.next] (by decide)

end Spec2Proof
